import Mathlib

/-!
Verification of the alert state machine, price-change evaluator and polling
cycle of the live stock monitor (src/stock_monitor.py and src/dashboard.py;
the core logic is duplicated nearly verbatim in the two front-ends, and the
definitions below embed that shared logic once, noting the one place the two
files differ).

Prices, percentages and threshold values are embedded as exact rationals (ℚ).
The Python dictionaries `previous_prices`, `stock_alerts` and
`alert_triggered` are embedded as functions from symbol to `Option`-value;
the per-threshold trigger dictionaries (whose reads use `.get(val, False)`)
are embedded as total functions `ℚ → Bool` defaulting to `false`.
Alert message strings are embedded as an inductive `Msg` with a `render`
function producing the f-string text from the source.
-/

/-- Alert messages produced by `check_alerts`.  Each constructor corresponds
to one `messages.append(f"...")` line of the source; `Msg.render` produces
the text. -/
inductive Msg where
  | priceAbove (val : ℚ)
  | priceBelow (val : ℚ)
  | percentAbove (val : ℚ)
  | percentBelow (val : ℚ)
deriving DecidableEq

/-- The message text of each alert, from the f-strings in `check_alerts`
(the embedding renders the threshold as an exact rational). -/
def Msg.render : Msg → String
  | .priceAbove v => "Price above " ++ toString v
  | .priceBelow v => "Price below " ++ toString v
  | .percentAbove v => "Percentage change above " ++ toString v ++ "%"
  | .percentBelow v => "Percentage change below " ++ toString v ++ "%"

/-- Whether a message is one of the two percent-threshold messages. -/
def Msg.isPercentMsg : Msg → Bool
  | .percentAbove _ => true
  | .percentBelow _ => true
  | _ => false

/-- One symbol's entry of `stock_alerts`: the four threshold lists created by
`add_stock` and extended by the set-alert handlers. -/
structure AlertConfig where
  price_high : List ℚ
  price_low : List ℚ
  percent_high : List ℚ
  percent_low : List ℚ
deriving DecidableEq

def AlertConfig.empty : AlertConfig := ⟨[], [], [], []⟩

/-- One symbol's entry of `alert_triggered`: four trigger dictionaries, read
with `.get(val, False)`, embedded as total functions defaulting to `false`. -/
structure TriggerState where
  price_high : ℚ → Bool
  price_low : ℚ → Bool
  percent_high : ℚ → Bool
  percent_low : ℚ → Bool

def TriggerState.empty : TriggerState :=
  ⟨fun _ => false, fun _ => false, fun _ => false, fun _ => false⟩

/-- One row appended to `export_data` (the dict literal in
`monitor_stock_prices`); `time` is the opaque wall-clock string. -/
structure ObservationRecord where
  time : String
  symbol : String
  price : ℚ
  pctChange : Option ℚ
  price_high : List ℚ
  price_low : List ℚ
  percent_high : List ℚ
  percent_low : List ℚ
deriving DecidableEq

/-- The module-level mutable state of the monitor that the polling cycle
reads and writes: `previous_prices`, `stock_alerts`, `alert_triggered` and
`export_data`. -/
structure MonitorState where
  previous_prices : String → Option ℚ
  stock_alerts : String → Option AlertConfig
  alert_triggered : String → Option TriggerState
  export_data : List ObservationRecord

def emptyMonitorState : MonitorState :=
  { previous_prices := fun _ => none, stock_alerts := fun _ => none,
    alert_triggered := fun _ => none, export_data := [] }

/-- `MAX_ROWS = 500`, the cap for in-memory rows. -/
def MAX_ROWS : ℕ := 500

/-- `calculate_percentage_change` (identical in both source files): `None`
when no previous price is stored or the previous price is zero, otherwise
`(current - previous) / previous * 100`. -/
def calculate_percentage_change (previous_prices : String → Option ℚ)
    (symbol : String) (current_price : ℚ) : Option ℚ :=
  match previous_prices symbol with
  | some previous_price =>
    if previous_price ≠ 0 then
      some ((current_price - previous_price) / previous_price * 100)
    else
      none
  | none => none

/-- Dictionary assignment `d[val] = b` for a trigger dictionary read with
default `false`. -/
def setFlag (f : ℚ → Bool) (v : ℚ) (b : Bool) : ℚ → Bool :=
  fun w => if w = v then b else f w

/-- One iteration of one of the four alert loops in `check_alerts`:
fire (append a message and set the flag) when the flag is clear and the hit
condition holds, silently clear the flag when it is set and the reset
condition holds, otherwise do nothing. -/
def edgeStep (hit reset : ℚ → Bool) (mk : ℚ → Msg)
    (acc : List Msg × (ℚ → Bool)) (val : ℚ) : List Msg × (ℚ → Bool) :=
  if acc.2 val = false ∧ hit val = true then
    (acc.1 ++ [mk val], setFlag acc.2 val true)
  else if acc.2 val = true ∧ reset val = true then
    (acc.1, setFlag acc.2 val false)
  else
    acc

/-- `current_price >= val`. -/
def priceAboveHit (price v : ℚ) : Bool := decide (price ≥ v)
/-- `current_price < val`. -/
def priceAboveReset (price v : ℚ) : Bool := decide (price < v)
/-- `current_price <= val`. -/
def priceBelowHit (price v : ℚ) : Bool := decide (price ≤ v)
/-- `current_price > val`. -/
def priceBelowReset (price v : ℚ) : Bool := decide (price > v)
/-- `percentage_change is not None and percentage_change >= val`. -/
def percentAboveHit (pct : Option ℚ) (v : ℚ) : Bool :=
  match pct with
  | some x => decide (x ≥ v)
  | none => false
/-- `percentage_change is not None and percentage_change < val`. -/
def percentAboveReset (pct : Option ℚ) (v : ℚ) : Bool :=
  match pct with
  | some x => decide (x < v)
  | none => false
/-- `percentage_change is not None and percentage_change <= val`. -/
def percentBelowHit (pct : Option ℚ) (v : ℚ) : Bool :=
  match pct with
  | some x => decide (x ≤ v)
  | none => false
/-- `percentage_change is not None and percentage_change > val`. -/
def percentBelowReset (pct : Option ℚ) (v : ℚ) : Bool :=
  match pct with
  | some x => decide (x > v)
  | none => false

/-- The "Price Above (multiple)" loop of `check_alerts`, acting on the
accumulated messages and the `price_high` trigger dictionary. -/
def stepPH (price : ℚ) (vals : List ℚ) (a : List Msg × TriggerState) :
    List Msg × TriggerState :=
  let r := vals.foldl (edgeStep (priceAboveHit price) (priceAboveReset price)
    Msg.priceAbove) (a.1, a.2.price_high)
  (r.1, { a.2 with price_high := r.2 })

/-- The "Price Below (multiple)" loop of `check_alerts`. -/
def stepPL (price : ℚ) (vals : List ℚ) (a : List Msg × TriggerState) :
    List Msg × TriggerState :=
  let r := vals.foldl (edgeStep (priceBelowHit price) (priceBelowReset price)
    Msg.priceBelow) (a.1, a.2.price_low)
  (r.1, { a.2 with price_low := r.2 })

/-- The "Percent Above (multiple)" loop of `check_alerts`. -/
def stepCH (pct : Option ℚ) (vals : List ℚ) (a : List Msg × TriggerState) :
    List Msg × TriggerState :=
  let r := vals.foldl (edgeStep (percentAboveHit pct) (percentAboveReset pct)
    Msg.percentAbove) (a.1, a.2.percent_high)
  (r.1, { a.2 with percent_high := r.2 })

/-- The "Percent Below (multiple)" loop of `check_alerts`. -/
def stepCL (pct : Option ℚ) (vals : List ℚ) (a : List Msg × TriggerState) :
    List Msg × TriggerState :=
  let r := vals.foldl (edgeStep (percentBelowHit pct) (percentBelowReset pct)
    Msg.percentBelow) (a.1, a.2.percent_low)
  (r.1, { a.2 with percent_low := r.2 })

/-- The four alert loops of `check_alerts` run in source order, starting from
an empty message list and the symbol's trigger state. -/
def runCollections (price : ℚ) (pct : Option ℚ) (alerts : AlertConfig)
    (triggered : TriggerState) : List Msg × TriggerState :=
  stepCL pct alerts.percent_low
    (stepCH pct alerts.percent_high
      (stepPL price alerts.price_low
        (stepPH price alerts.price_high ([], triggered))))

/-- The dictionary write `alert_triggered[symbol] = T` (the net effect of
`setdefault` followed by the in-place mutations of the four trigger dicts):
only the symbol's `alert_triggered` entry changes. -/
def installTrig (s : MonitorState) (symbol : String) (T : TriggerState) :
    MonitorState :=
  { s with alert_triggered :=
      fun t => if t = symbol then some T else s.alert_triggered t }

/-- `check_alerts` in message-collecting mode (the `collect_only=True` path
of stock_monitor.py, identical to dashboard.py's `check_alerts`): returns
the collected messages and the state with the symbol's `alert_triggered`
entry installed/updated (Python's `setdefault` followed by in-place dict
mutation). Only `alert_triggered` is written; the other maps are untouched. -/
def check_alerts (s : MonitorState) (symbol : String) (current_price : ℚ)
    (percentage_change : Option ℚ) : List Msg × MonitorState :=
  match s.stock_alerts symbol with
  | none => ([], s)
  | some alerts =>
    let r := runCollections current_price percentage_change alerts
      ((s.alert_triggered symbol).getD TriggerState.empty)
    (r.1, installTrig s symbol r.2)

/-- The symbol's trigger state as `check_alerts` reads it
(`alert_triggered.setdefault(symbol, {...})` with all-clear default). -/
def trigOf (s : MonitorState) (symbol : String) : TriggerState :=
  (s.alert_triggered symbol).getD TriggerState.empty

/-- `export_data[:] = export_data[-MAX_ROWS:]` applied when the length
exceeds the cap (lines 154-156 of stock_monitor.py / 133-134 of
dashboard.py). -/
def capRows {α : Type} (cap : ℕ) (l : List α) : List α :=
  if l.length > cap then l.drop (l.length - cap) else l

/-- One append to the history buffer immediately followed by the cap, as
dashboard.py performs per record (stock_monitor.py performs the same cap once
per cycle, which coincides with this when one record is appended). -/
def appendCapped {α : Type} (cap : ℕ) (buf : List α) (r : α) : List α :=
  capRows cap (buf ++ [r])

/-- The history buffer contents after appending a sequence of records to an
initially empty capped buffer. -/
def histAfter {α : Type} (cap : ℕ) (rs : List α) : List α :=
  rs.foldl (appendCapped cap) []

/-- The batch-fetch result: `some f` when `yf.download` succeeds (with `f`
the per-symbol price lookup; `none` for a missing or NaN price), and `none`
when the whole batch call raises (in which case the source sets
`last_row = {}`, i.e. every lookup misses). -/
def fetchRow (fetch : Option (String → Option ℚ)) : String → Option ℚ :=
  match fetch with
  | some f => f
  | none => fun _ => none

/-- The per-symbol body of the polling loop in `monitor_stock_prices`: skip
the symbol when its price is unavailable; otherwise compute the percentage
change, run `check_alerts`, collect the symbol's alert messages when
non-empty, update `previous_prices[symbol]`, and append an
`ObservationRecord` snapshotting the symbol's four threshold lists (the
source indexes `stock_alerts[symbol]` directly, which a tracked symbol
always has; the embedding reads it with an empty default). -/
def processHit (s : MonitorState) (alert_messages : List (String × List Msg))
    (now symbol : String) (price : ℚ) :
    MonitorState × List (String × List Msg) :=
  let percentage_change :=
    calculate_percentage_change s.previous_prices symbol price
  let res := check_alerts s symbol price percentage_change
  let alertsOut :=
    if res.1.isEmpty then alert_messages
    else alert_messages ++ [(symbol, res.1)]
  let cfg := (res.2.stock_alerts symbol).getD AlertConfig.empty
  ({ res.2 with
      previous_prices :=
        fun t => if t = symbol then some price else res.2.previous_prices t,
      export_data := res.2.export_data ++
        [{ time := now, symbol := symbol, price := price,
           pctChange := percentage_change,
           price_high := cfg.price_high, price_low := cfg.price_low,
           percent_high := cfg.percent_high,
           percent_low := cfg.percent_low }] },
   alertsOut)

def processSymbol (last_row : String → Option ℚ) (now : String)
    (acc : MonitorState × List (String × List Msg)) (symbol : String) :
    MonitorState × List (String × List Msg) :=
  match last_row symbol with
  | none => acc
  | some price => processHit acc.1 acc.2 now symbol price

/-- One full cycle of `monitor_stock_prices` (stock_monitor.py lines
108-163): process every tracked symbol against the batch response (an empty
response when the batch call failed), then cap `export_data`.  Returns the
new state together with the cycle's `alert_messages` list. -/
def monitor_stock_prices_cycle (s : MonitorState) (stock_symbols : List String)
    (now : String) (fetch : Option (String → Option ℚ)) :
    MonitorState × List (String × List Msg) :=
  let r := stock_symbols.foldl (processSymbol (fetchRow fetch) now) (s, [])
  ({ r.1 with export_data := capRows MAX_ROWS r.1.export_data }, r.2)

/-- The loop-continuation condition of `monitor_stock_prices` in
stock_monitor.py: the loop is `while True:` and never consults `stop_event`,
so it continues regardless of whether a stop was requested. -/
def monitorLoopCondition (_stopRequested : Bool) : Bool := true

/-- The loop-continuation condition of `monitor_stock_prices` in
dashboard.py: `while not stop_event.is_set():`. -/
def dashboardLoopCondition (stopRequested : Bool) : Bool := !stopRequested

/-- Run the polling cycle once per price in the given list for a single
tracked symbol, returning each cycle's alert output. -/
def runPrices : MonitorState → String → List ℚ → List (List (String × List Msg))
  | _, _, [] => []
  | s, sym, p :: rest =>
    let r := monitor_stock_prices_cycle s [sym] "" (some fun t => if t = sym then some p else none)
    r.2 :: runPrices r.1 sym rest

/-- Watch-list state after `add_stock "ABC"` and a Price Above alert at 100:
scenario state for the edge-trigger claim. -/
def abcState : MonitorState :=
  { emptyMonitorState with
    stock_alerts :=
      fun t => if t = "ABC" then some { AlertConfig.empty with price_high := [100] } else none,
    alert_triggered :=
      fun t => if t = "ABC" then some TriggerState.empty else none }

/-- Watch-list state after `add_stock "XYZ"` and a Percent Below alert at -5:
scenario state for the percent-below claim. -/
def xyzState : MonitorState :=
  { emptyMonitorState with
    stock_alerts :=
      fun t => if t = "XYZ" then some { AlertConfig.empty with percent_low := [-5] } else none,
    alert_triggered :=
      fun t => if t = "XYZ" then some TriggerState.empty else none }

/-- The first percent-below scenario cycle: price 100 observed. -/
def xyzCycle1 : MonitorState × List (String × List Msg) :=
  monitor_stock_prices_cycle xyzState ["XYZ"] "" (some fun _ => some 100)

/-- State after the first percent-below scenario cycle. -/
def xyzAfterFirstCycle : MonitorState := xyzCycle1.1

/-- The second percent-below scenario cycle: price 94 observed. -/
def xyzCycle2 : MonitorState × List (String × List Msg) :=
  monitor_stock_prices_cycle xyzAfterFirstCycle ["XYZ"] "" (some fun _ => some 94)

/-- A distinguishable observation record for the history-buffer scenario. -/
def sampleRec (i : ℕ) : ObservationRecord :=
  { time := "", symbol := "S", price := i, pctChange := none,
    price_high := [], price_low := [], percent_high := [], percent_low := [] }

/-- 501 sequential observation records for the history-buffer scenario. -/
def sampleRecords : List ObservationRecord := (List.range 501).map sampleRec

/-- Batch response for the per-symbol-skip witness: price unavailable for
"AAA", available for "BBB". -/
def skipDemoRow : String → Option ℚ :=
  fun t => if t = "BBB" then some 5 else none

/-- A trigger flag is consistent with a hit/reset condition pair: a set flag
cannot be reset and a clear flag cannot fire.  This is the state every flag
is left in by an alert loop iteration on its own value, and a flag in this
state makes the iteration a no-op. -/
def goodAt (hit reset : ℚ → Bool) (f : ℚ → Bool) (v : ℚ) : Prop :=
  (f v = true → reset v = false) ∧ (f v = false → hit v = false)

theorem setFlag_self (f : ℚ → Bool) (v : ℚ) (b : Bool) : setFlag f v b v = b := by
  simp [setFlag]

theorem setFlag_ne (f : ℚ → Bool) (v : ℚ) (b : Bool) (w : ℚ) (h : w ≠ v) :
    setFlag f v b w = f w := by
  simp [setFlag, h]

theorem edgeStep_flag_ne (hit reset : ℚ → Bool) (mk : ℚ → Msg)
    (acc : List Msg × (ℚ → Bool)) (w u : ℚ) (h : u ≠ w) :
    (edgeStep hit reset mk acc w).2 u = acc.2 u := by
  unfold edgeStep
  split_ifs <;> simp [setFlag_ne _ _ _ _ h]

theorem foldl_edge_flag_notMem (hit reset : ℚ → Bool) (mk : ℚ → Msg) :
    ∀ (vals : List ℚ) (acc : List Msg × (ℚ → Bool)) (u : ℚ), u ∉ vals →
      (vals.foldl (edgeStep hit reset mk) acc).2 u = acc.2 u := by
  intro vals
  induction vals with
  | nil => intro acc u _; rfl
  | cons w rest ih =>
    intro acc u hu
    simp only [List.mem_cons, not_or] at hu
    rw [List.foldl_cons, ih _ u hu.2, edgeStep_flag_ne _ _ _ _ _ _ hu.1]

theorem edgeStep_msgs_cases (hit reset : ℚ → Bool) (mk : ℚ → Msg)
    (acc : List Msg × (ℚ → Bool)) (w : ℚ) :
    (edgeStep hit reset mk acc w).1 = acc.1 ∨
      (edgeStep hit reset mk acc w).1 = acc.1 ++ [mk w] := by
  unfold edgeStep
  split_ifs <;> simp

theorem foldl_edge_countP (hit reset : ℚ → Bool) (mk : ℚ → Msg) (p : Msg → Bool) :
    ∀ (vals : List ℚ) (acc : List Msg × (ℚ → Bool)),
      (∀ w ∈ vals, p (mk w) = false) →
      ((vals.foldl (edgeStep hit reset mk) acc).1.countP p) = acc.1.countP p := by
  intro vals
  induction vals with
  | nil => intro acc _; rfl
  | cons w rest ih =>
    intro acc h
    rw [List.foldl_cons, ih _ (fun x hx => h x (List.mem_cons_of_mem _ hx))]
    rcases edgeStep_msgs_cases hit reset mk acc w with hc | hc
    · rw [hc]
    · rw [hc, List.countP_append]
      simp [List.countP_cons, h w (List.mem_cons_self w rest)]

theorem foldl_edge_count (hit reset : ℚ → Bool) (mk : ℚ → Msg) (m : Msg) :
    ∀ (vals : List ℚ) (acc : List Msg × (ℚ → Bool)),
      (∀ w ∈ vals, mk w ≠ m) →
      ((vals.foldl (edgeStep hit reset mk) acc).1.count m) = acc.1.count m := by
  intro vals
  induction vals with
  | nil => intro acc _; rfl
  | cons w rest ih =>
    intro acc h
    rw [List.foldl_cons, ih _ (fun x hx => h x (List.mem_cons_of_mem _ hx))]
    rcases edgeStep_msgs_cases hit reset mk acc w with hc | hc
    · rw [hc]
    · rw [hc, List.count_append]
      simp [List.count_singleton', h w (List.mem_cons_self w rest)]

theorem edgeStep_goodAt (hit reset : ℚ → Bool) (mk : ℚ → Msg)
    (hx : ∀ u, hit u = true → reset u = false)
    (acc : List Msg × (ℚ → Bool)) (w v : ℚ)
    (h : goodAt hit reset acc.2 v ∨ w = v) :
    goodAt hit reset (edgeStep hit reset mk acc w).2 v := by
  by_cases hvw : v = w
  · subst hvw
    unfold edgeStep
    split_ifs with h1 h2
    · constructor
      · intro _; exact hx v h1.2
      · intro hf; simp [setFlag_self] at hf
    · constructor
      · intro ht; simp [setFlag_self] at ht
      · intro _
        by_cases hh : hit v = true
        · rw [hx v hh] at h2; simp at h2
        · simpa using hh
    · constructor
      · intro ht
        by_cases hr : reset v = true
        · exact absurd ⟨ht, hr⟩ h2
        · simpa using hr
      · intro hf
        by_cases hh : hit v = true
        · exact absurd ⟨hf, hh⟩ h1
        · simpa using hh
  · rcases h with hg | hwv
    · constructor
      · intro ht
        rw [edgeStep_flag_ne _ _ _ _ _ _ hvw] at ht
        exact hg.1 ht
      · intro hf
        rw [edgeStep_flag_ne _ _ _ _ _ _ hvw] at hf
        exact hg.2 hf
    · exact absurd hwv.symm hvw

theorem foldl_edge_goodAt (hit reset : ℚ → Bool) (mk : ℚ → Msg)
    (hx : ∀ u, hit u = true → reset u = false) :
    ∀ (vals : List ℚ) (acc : List Msg × (ℚ → Bool)) (v : ℚ),
      (goodAt hit reset acc.2 v ∨ v ∈ vals) →
      goodAt hit reset ((vals.foldl (edgeStep hit reset mk) acc)).2 v := by
  intro vals
  induction vals with
  | nil =>
    intro acc v h
    rcases h with h | h
    · exact h
    · cases h
  | cons w rest ih =>
    intro acc v h
    rw [List.foldl_cons]
    apply ih
    rcases h with hg | hm
    · exact Or.inl (edgeStep_goodAt _ _ _ hx _ _ _ (Or.inl hg))
    · rcases List.mem_cons.mp hm with rfl | hr
      · exact Or.inl (edgeStep_goodAt _ _ _ hx _ _ _ (Or.inr rfl))
      · exact Or.inr hr

theorem edgeStep_noop (hit reset : ℚ → Bool) (mk : ℚ → Msg)
    (acc : List Msg × (ℚ → Bool)) (w : ℚ) (h : goodAt hit reset acc.2 w) :
    edgeStep hit reset mk acc w = acc := by
  unfold edgeStep
  split_ifs with h1 h2
  · simp [h.2 h1.1] at h1
  · simp [h.1 h2.1] at h2
  · rfl

theorem foldl_edge_noop (hit reset : ℚ → Bool) (mk : ℚ → Msg) :
    ∀ (vals : List ℚ) (acc : List Msg × (ℚ → Bool)),
      (∀ w ∈ vals, goodAt hit reset acc.2 w) →
      vals.foldl (edgeStep hit reset mk) acc = acc := by
  intro vals
  induction vals with
  | nil => intro acc _; rfl
  | cons w rest ih =>
    intro acc h
    rw [List.foldl_cons, edgeStep_noop _ _ _ _ _ (h w (List.mem_cons_self w rest))]
    exact ih _ (fun x hx => h x (List.mem_cons_of_mem _ hx))

theorem priceAbove_excl (price : ℚ) :
    ∀ u, priceAboveHit price u = true → priceAboveReset price u = false := by
  intro u h
  simp only [priceAboveHit, decide_eq_true_eq] at h
  simp [priceAboveReset, not_lt.mpr h]

theorem priceBelow_excl (price : ℚ) :
    ∀ u, priceBelowHit price u = true → priceBelowReset price u = false := by
  intro u h
  simp only [priceBelowHit, decide_eq_true_eq] at h
  simp [priceBelowReset, not_lt.mpr h]

theorem percentAbove_excl (pct : Option ℚ) :
    ∀ u, percentAboveHit pct u = true → percentAboveReset pct u = false := by
  intro u h
  cases pct with
  | none => cases h
  | some x =>
    simp only [percentAboveHit, decide_eq_true_eq] at h
    simp [percentAboveReset, not_lt.mpr h]

theorem percentBelow_excl (pct : Option ℚ) :
    ∀ u, percentBelowHit pct u = true → percentBelowReset pct u = false := by
  intro u h
  cases pct with
  | none => cases h
  | some x =>
    simp only [percentBelowHit, decide_eq_true_eq] at h
    simp [percentBelowReset, not_lt.mpr h]

theorem stepPH_noop (price : ℚ) (vals : List ℚ) (a : List Msg × TriggerState)
    (h : ∀ w ∈ vals,
      goodAt (priceAboveHit price) (priceAboveReset price) a.2.price_high w) :
    stepPH price vals a = a := by
  unfold stepPH
  rw [foldl_edge_noop _ _ _ _ _ h]

theorem stepPL_noop (price : ℚ) (vals : List ℚ) (a : List Msg × TriggerState)
    (h : ∀ w ∈ vals,
      goodAt (priceBelowHit price) (priceBelowReset price) a.2.price_low w) :
    stepPL price vals a = a := by
  unfold stepPL
  rw [foldl_edge_noop _ _ _ _ _ h]

theorem stepCH_noop (pct : Option ℚ) (vals : List ℚ) (a : List Msg × TriggerState)
    (h : ∀ w ∈ vals,
      goodAt (percentAboveHit pct) (percentAboveReset pct) a.2.percent_high w) :
    stepCH pct vals a = a := by
  unfold stepCH
  rw [foldl_edge_noop _ _ _ _ _ h]

theorem stepCL_noop (pct : Option ℚ) (vals : List ℚ) (a : List Msg × TriggerState)
    (h : ∀ w ∈ vals,
      goodAt (percentBelowHit pct) (percentBelowReset pct) a.2.percent_low w) :
    stepCL pct vals a = a := by
  unfold stepCL
  rw [foldl_edge_noop _ _ _ _ _ h]

theorem runCollections_second (price : ℚ) (pct : Option ℚ) (cfg : AlertConfig)
    (t : TriggerState) :
    runCollections price pct cfg (runCollections price pct cfg t).2 =
      ([], (runCollections price pct cfg t).2) := by
  have e1 : stepPH price cfg.price_high
      (([] : List Msg), (runCollections price pct cfg t).2) =
      (([] : List Msg), (runCollections price pct cfg t).2) :=
    stepPH_noop _ _ _ (fun w hw =>
      foldl_edge_goodAt _ _ _ (priceAbove_excl price) _ _ _ (Or.inr hw))
  have e2 : stepPL price cfg.price_low
      (([] : List Msg), (runCollections price pct cfg t).2) =
      (([] : List Msg), (runCollections price pct cfg t).2) :=
    stepPL_noop _ _ _ (fun w hw =>
      foldl_edge_goodAt _ _ _ (priceBelow_excl price) _ _ _ (Or.inr hw))
  have e3 : stepCH pct cfg.percent_high
      (([] : List Msg), (runCollections price pct cfg t).2) =
      (([] : List Msg), (runCollections price pct cfg t).2) :=
    stepCH_noop _ _ _ (fun w hw =>
      foldl_edge_goodAt _ _ _ (percentAbove_excl pct) _ _ _ (Or.inr hw))
  have e4 : stepCL pct cfg.percent_low
      (([] : List Msg), (runCollections price pct cfg t).2) =
      (([] : List Msg), (runCollections price pct cfg t).2) :=
    stepCL_noop _ _ _ (fun w hw =>
      foldl_edge_goodAt _ _ _ (percentBelow_excl pct) _ _ _ (Or.inr hw))
  show stepCL pct cfg.percent_low
      (stepCH pct cfg.percent_high
        (stepPL price cfg.price_low
          (stepPH price cfg.price_high
            (([] : List Msg), (runCollections price pct cfg t).2)))) = _
  rw [e1, e2, e3, e4]

theorem check_alerts_of_some (s : MonitorState) (symbol : String)
    (price : ℚ) (pct : Option ℚ) (cfg : AlertConfig)
    (h : s.stock_alerts symbol = some cfg) :
    check_alerts s symbol price pct =
      ((runCollections price pct cfg (trigOf s symbol)).1,
       installTrig s symbol (runCollections price pct cfg (trigOf s symbol)).2) := by
  unfold check_alerts trigOf
  rw [h]

theorem installTrig_stock_alerts (s : MonitorState) (symbol : String)
    (T : TriggerState) : (installTrig s symbol T).stock_alerts = s.stock_alerts :=
  rfl

theorem installTrig_previous_prices (s : MonitorState) (symbol : String)
    (T : TriggerState) :
    (installTrig s symbol T).previous_prices = s.previous_prices :=
  rfl

theorem installTrig_export_data (s : MonitorState) (symbol : String)
    (T : TriggerState) : (installTrig s symbol T).export_data = s.export_data :=
  rfl

theorem installTrig_trig_ne (s : MonitorState) (symbol : String)
    (T : TriggerState) (q : String) (hq : q ≠ symbol) :
    (installTrig s symbol T).alert_triggered q = s.alert_triggered q := by
  simp [installTrig, hq]

theorem trigOf_installTrig_self (s : MonitorState) (symbol : String)
    (T : TriggerState) : trigOf (installTrig s symbol T) symbol = T := by
  simp [trigOf, installTrig]

theorem check_alerts_of_none (s : MonitorState) (symbol : String)
    (price : ℚ) (pct : Option ℚ) (h : s.stock_alerts symbol = none) :
    check_alerts s symbol price pct = ([], s) := by
  unfold check_alerts
  rw [h]

theorem check_alerts_snd_stock_alerts (s : MonitorState) (symbol : String)
    (price : ℚ) (pct : Option ℚ) :
    (check_alerts s symbol price pct).2.stock_alerts = s.stock_alerts := by
  cases h : s.stock_alerts symbol with
  | none => rw [check_alerts_of_none s symbol price pct h]
  | some cfg =>
    rw [check_alerts_of_some s symbol price pct cfg h]
    rfl

theorem check_alerts_snd_previous_prices (s : MonitorState) (symbol : String)
    (price : ℚ) (pct : Option ℚ) :
    (check_alerts s symbol price pct).2.previous_prices = s.previous_prices := by
  cases h : s.stock_alerts symbol with
  | none => rw [check_alerts_of_none s symbol price pct h]
  | some cfg =>
    rw [check_alerts_of_some s symbol price pct cfg h]
    rfl

theorem check_alerts_snd_export_data (s : MonitorState) (symbol : String)
    (price : ℚ) (pct : Option ℚ) :
    (check_alerts s symbol price pct).2.export_data = s.export_data := by
  cases h : s.stock_alerts symbol with
  | none => rw [check_alerts_of_none s symbol price pct h]
  | some cfg =>
    rw [check_alerts_of_some s symbol price pct cfg h]
    rfl

theorem check_alerts_snd_trig_ne (s : MonitorState) (symbol : String)
    (price : ℚ) (pct : Option ℚ) (q : String) (hq : q ≠ symbol) :
    (check_alerts s symbol price pct).2.alert_triggered q =
      s.alert_triggered q := by
  cases h : s.stock_alerts symbol with
  | none => rw [check_alerts_of_none s symbol price pct h]
  | some cfg =>
    rw [check_alerts_of_some s symbol price pct cfg h]
    exact installTrig_trig_ne s symbol _ q hq

/-- C3: idempotence of evaluate.  Calling `check_alerts` twice consecutively
with the same symbol, price and percent and no intervening state-changing
call yields the empty message list on the second call — unconditionally, and
in particular whenever the first call returned a non-empty list (those
thresholds are now armed) — so the second call never double-fires any
threshold. -/
theorem check_alerts_idempotent (s : MonitorState) (symbol : String)
    (price : ℚ) (pct : Option ℚ) :
    (check_alerts (check_alerts s symbol price pct).2 symbol price pct).1 = [] := by
  cases hcfg : s.stock_alerts symbol with
  | none =>
    rw [check_alerts_of_none s symbol price pct hcfg,
      check_alerts_of_none s symbol price pct hcfg]
  | some cfg =>
    rw [check_alerts_of_some s symbol price pct cfg hcfg]
    have hcfg2 : (installTrig s symbol
        (runCollections price pct cfg (trigOf s symbol)).2).stock_alerts symbol =
        some cfg := hcfg
    rw [check_alerts_of_some _ symbol price pct cfg hcfg2,
      trigOf_installTrig_self, runCollections_second]

/-- C2: the `ChangeCalculator` contract of `calculate_percentage_change`: the
result is `none` exactly when no prior price is recorded for the symbol or
the prior price is zero, and otherwise it is
`(current - previous) / previous * 100`.  The embedding is a total pure
function of the previous-price map, matching the source, which reads
`previous_prices` but never writes it and can raise no exception. -/
theorem calculate_percentage_change_spec (previous_prices : String → Option ℚ)
    (symbol : String) (current_price : ℚ) :
    (calculate_percentage_change previous_prices symbol current_price = none ↔
      (previous_prices symbol = none ∨ previous_prices symbol = some 0)) ∧
    (∀ q : ℚ, previous_prices symbol = some q → q ≠ 0 →
      calculate_percentage_change previous_prices symbol current_price =
        some ((current_price - q) / q * 100)) := by
  constructor
  · cases h : previous_prices symbol with
    | none => simp [calculate_percentage_change, h]
    | some q =>
      by_cases hq : q = 0
      · subst hq
        simp [calculate_percentage_change, h]
      · simp [calculate_percentage_change, h, hq]
  · intro q hq hq0
    simp [calculate_percentage_change, hq, hq0]

/-- Witness for C2 at a concrete input: previous price 50, current price 60. -/
theorem calculate_percentage_change_spec_witness :
    calculate_percentage_change (fun _ => some 50) "AAPL" 60 =
      some ((60 - 50) / 50 * 100) :=
  (calculate_percentage_change_spec (fun _ => some 50) "AAPL" 60).2 50 rfl
    (by decide)

/-- C10: evaluating an unconfigured symbol is a no-op.  When the symbol has
no entry in `stock_alerts`, `check_alerts` in message-collecting mode
returns the empty list and the state unchanged (so the trigger-state map,
the previous-price map and the history buffer are all untouched). -/
theorem check_alerts_unconfigured_noop (s : MonitorState) (symbol : String)
    (price : ℚ) (pct : Option ℚ) (h : s.stock_alerts symbol = none) :
    check_alerts s symbol price pct = ([], s) :=
  check_alerts_of_none s symbol price pct h

/-- Witness for C10 at a concrete input: the empty watch-list state. -/
theorem check_alerts_unconfigured_noop_witness :
    check_alerts emptyMonitorState "QQQ" 1 none = ([], emptyMonitorState) :=
  check_alerts_unconfigured_noop emptyMonitorState "QQQ" 1 none rfl

/-- C9: the stop signal.  dashboard.py's polling loop runs under
`while not stop_event.is_set():`, so its continuation condition is false once
the stop signal is set; stock_monitor.py's loop, however, is `while True:`
and never consults `stop_event`, so its continuation condition remains true
after the stop signal — setting `stop_event` (as `on_close` does before
joining the thread) does not terminate that loop, contradicting the claim
for the tkinter front-end. -/
theorem stop_signal_loop_guard :
    monitorLoopCondition true = true ∧
    dashboardLoopCondition true = false ∧
    monitorLoopCondition true ≠ dashboardLoopCondition true := by
  refine ⟨rfl, rfl, ?_⟩
  decide

theorem check_alerts_msgs_of_some (s : MonitorState) (symbol : String)
    (price : ℚ) (pct : Option ℚ) (cfg : AlertConfig)
    (h : s.stock_alerts symbol = some cfg) :
    (check_alerts s symbol price pct).1 =
      (runCollections price pct cfg (trigOf s symbol)).1 := by
  rw [check_alerts_of_some s symbol price pct cfg h]

theorem check_alerts_trigOf_of_some (s : MonitorState) (symbol : String)
    (price : ℚ) (pct : Option ℚ) (cfg : AlertConfig)
    (h : s.stock_alerts symbol = some cfg) :
    trigOf (check_alerts s symbol price pct).2 symbol =
      (runCollections price pct cfg (trigOf s symbol)).2 := by
  rw [check_alerts_of_some s symbol price pct cfg h]
  exact trigOf_installTrig_self s symbol _

theorem stepPH_countP (price : ℚ) (vals : List ℚ) (a : List Msg × TriggerState)
    (p : Msg → Bool) (h : ∀ w ∈ vals, p (Msg.priceAbove w) = false) :
    (stepPH price vals a).1.countP p = a.1.countP p :=
  foldl_edge_countP (priceAboveHit price) (priceAboveReset price)
    Msg.priceAbove p vals (a.1, a.2.price_high) h

theorem stepPL_countP (price : ℚ) (vals : List ℚ) (a : List Msg × TriggerState)
    (p : Msg → Bool) (h : ∀ w ∈ vals, p (Msg.priceBelow w) = false) :
    (stepPL price vals a).1.countP p = a.1.countP p :=
  foldl_edge_countP (priceBelowHit price) (priceBelowReset price)
    Msg.priceBelow p vals (a.1, a.2.price_low) h

theorem stepCH_countP (pct : Option ℚ) (vals : List ℚ)
    (a : List Msg × TriggerState) (p : Msg → Bool)
    (h : ∀ w ∈ vals, p (Msg.percentAbove w) = false) :
    (stepCH pct vals a).1.countP p = a.1.countP p :=
  foldl_edge_countP (percentAboveHit pct) (percentAboveReset pct)
    Msg.percentAbove p vals (a.1, a.2.percent_high) h

theorem stepCL_countP (pct : Option ℚ) (vals : List ℚ)
    (a : List Msg × TriggerState) (p : Msg → Bool)
    (h : ∀ w ∈ vals, p (Msg.percentBelow w) = false) :
    (stepCL pct vals a).1.countP p = a.1.countP p :=
  foldl_edge_countP (percentBelowHit pct) (percentBelowReset pct)
    Msg.percentBelow p vals (a.1, a.2.percent_low) h

theorem stepPL_count (price : ℚ) (vals : List ℚ) (a : List Msg × TriggerState)
    (m : Msg) (h : ∀ w ∈ vals, Msg.priceBelow w ≠ m) :
    (stepPL price vals a).1.count m = a.1.count m :=
  foldl_edge_count (priceBelowHit price) (priceBelowReset price)
    Msg.priceBelow m vals (a.1, a.2.price_low) h

theorem stepCH_count (pct : Option ℚ) (vals : List ℚ)
    (a : List Msg × TriggerState) (m : Msg)
    (h : ∀ w ∈ vals, Msg.percentAbove w ≠ m) :
    (stepCH pct vals a).1.count m = a.1.count m :=
  foldl_edge_count (percentAboveHit pct) (percentAboveReset pct)
    Msg.percentAbove m vals (a.1, a.2.percent_high) h

theorem stepCL_count (pct : Option ℚ) (vals : List ℚ)
    (a : List Msg × TriggerState) (m : Msg)
    (h : ∀ w ∈ vals, Msg.percentBelow w ≠ m) :
    (stepCL pct vals a).1.count m = a.1.count m :=
  foldl_edge_count (percentBelowHit pct) (percentBelowReset pct)
    Msg.percentBelow m vals (a.1, a.2.percent_low) h

theorem stepCH_pct_none (vals : List ℚ) (a : List Msg × TriggerState) :
    stepCH (none : Option ℚ) vals a = a :=
  stepCH_noop none vals a (fun _ _ => ⟨fun _ => rfl, fun _ => rfl⟩)

theorem stepCL_pct_none (vals : List ℚ) (a : List Msg × TriggerState) :
    stepCL (none : Option ℚ) vals a = a :=
  stepCL_noop none vals a (fun _ _ => ⟨fun _ => rfl, fun _ => rfl⟩)

theorem runCollections_pct_none (price : ℚ) (cfg : AlertConfig)
    (t : TriggerState) :
    runCollections price none cfg t =
      stepPL price cfg.price_low (stepPH price cfg.price_high ([], t)) := by
  show stepCL none cfg.percent_low
      (stepCH none cfg.percent_high
        (stepPL price cfg.price_low (stepPH price cfg.price_high ([], t)))) = _
  rw [stepCH_pct_none, stepCL_pct_none]

theorem runCollections_trig_price_high (price : ℚ) (pct : Option ℚ)
    (cfg : AlertConfig) (t : TriggerState) :
    (runCollections price pct cfg t).2.price_high =
      (cfg.price_high.foldl
        (edgeStep (priceAboveHit price) (priceAboveReset price) Msg.priceAbove)
        (([] : List Msg), t.price_high)).2 :=
  rfl

theorem runCollections_count_priceAbove (price : ℚ) (pct : Option ℚ)
    (cfg : AlertConfig) (t : TriggerState) (v : ℚ) :
    (runCollections price pct cfg t).1.count (Msg.priceAbove v) =
      (cfg.price_high.foldl
        (edgeStep (priceAboveHit price) (priceAboveReset price) Msg.priceAbove)
        (([] : List Msg), t.price_high)).1.count (Msg.priceAbove v) := by
  show (stepCL pct cfg.percent_low
      (stepCH pct cfg.percent_high
        (stepPL price cfg.price_low
          (stepPH price cfg.price_high ([], t))))).1.count (Msg.priceAbove v) = _
  rw [stepCL_count pct _ _ _ (fun w _ => by simp),
    stepCH_count pct _ _ _ (fun w _ => by simp),
    stepPL_count price _ _ _ (fun w _ => by simp)]
  rfl

theorem edgeStep_fire (hit reset : ℚ → Bool) (mk : ℚ → Msg)
    (acc : List Msg × (ℚ → Bool)) (w : ℚ)
    (h : acc.2 w = false) (hh : hit w = true) :
    edgeStep hit reset mk acc w =
      (acc.1 ++ [mk w], setFlag acc.2 w true) := by
  unfold edgeStep
  rw [if_pos ⟨h, hh⟩]

theorem edgeStep_reset (hit reset : ℚ → Bool) (mk : ℚ → Msg)
    (acc : List Msg × (ℚ → Bool)) (w : ℚ)
    (h : acc.2 w = true) (hr : reset w = true) :
    edgeStep hit reset mk acc w = (acc.1, setFlag acc.2 w false) := by
  unfold edgeStep
  rw [if_neg (by rw [h]; simp), if_pos ⟨h, hr⟩]

theorem edgeStep_frozen (hit reset : ℚ → Bool) (mk : ℚ → Msg)
    (acc : List Msg × (ℚ → Bool)) (w : ℚ)
    (h1 : ¬(acc.2 w = false ∧ hit w = true))
    (h2 : ¬(acc.2 w = true ∧ reset w = true)) :
    edgeStep hit reset mk acc w = acc := by
  unfold edgeStep
  rw [if_neg h1, if_neg h2]

theorem foldl_edge_once (hit reset : ℚ → Bool) (mk : ℚ → Msg)
    (hinj : ∀ w u : ℚ, mk w = mk u → w = u)
    (vals : List ℚ) (v : ℚ) (t : ℚ → Bool)
    (hnd : vals.Nodup) (hv : v ∈ vals) :
    (t v = false → hit v = true →
      (vals.foldl (edgeStep hit reset mk) (([] : List Msg), t)).1.count (mk v) = 1 ∧
      (vals.foldl (edgeStep hit reset mk) (([] : List Msg), t)).2 v = true) ∧
    (t v = true → reset v = false →
      (vals.foldl (edgeStep hit reset mk) (([] : List Msg), t)).1.count (mk v) = 0 ∧
      (vals.foldl (edgeStep hit reset mk) (([] : List Msg), t)).2 v = true) ∧
    (t v = true → reset v = true →
      (vals.foldl (edgeStep hit reset mk) (([] : List Msg), t)).1.count (mk v) = 0 ∧
      (vals.foldl (edgeStep hit reset mk) (([] : List Msg), t)).2 v = false) := by
  obtain ⟨l1, l2, hsplit⟩ := List.append_of_mem hv
  subst hsplit
  have hvl1 : v ∉ l1 :=
    fun hm => (List.nodup_append.mp hnd).2.2 hm (List.mem_cons_self v l2)
  have hvl2 : v ∉ l2 := (List.nodup_cons.mp (List.nodup_append.mp hnd).2.1).1
  have hne1 : ∀ w ∈ l1, mk w ≠ mk v := fun w hw heq => hvl1 ((hinj w v heq) ▸ hw)
  have hne2 : ∀ w ∈ l2, mk w ≠ mk v := fun w hw heq => hvl2 ((hinj w v heq) ▸ hw)
  rw [List.foldl_append, List.foldl_cons]
  have hmidflag :
      (l1.foldl (edgeStep hit reset mk) (([] : List Msg), t)).2 v = t v :=
    foldl_edge_flag_notMem hit reset mk l1 ([], t) v hvl1
  have hmidcount :
      (l1.foldl (edgeStep hit reset mk) (([] : List Msg), t)).1.count (mk v) = 0 := by
    rw [foldl_edge_count hit reset mk (mk v) l1 ([], t) hne1]
    rfl
  refine ⟨?_, ?_, ?_⟩
  · intro hf hh
    have hstep := edgeStep_fire hit reset mk
      (l1.foldl (edgeStep hit reset mk) (([] : List Msg), t)) v
      (hmidflag.trans hf) hh
    constructor
    · rw [foldl_edge_count hit reset mk (mk v) l2 _ hne2, hstep]
      show ((l1.foldl (edgeStep hit reset mk) (([] : List Msg), t)).1 ++
        [mk v]).count (mk v) = 1
      rw [List.count_append, hmidcount]
      simp [List.count_singleton']
    · rw [foldl_edge_flag_notMem hit reset mk l2 _ v hvl2, hstep]
      exact setFlag_self _ _ _
  · intro ht hr
    have hc1 : ¬((l1.foldl (edgeStep hit reset mk) (([] : List Msg), t)).2 v = false ∧
        hit v = true) := by
      intro hc
      rw [hmidflag, ht] at hc
      simp at hc
    have hc2 : ¬((l1.foldl (edgeStep hit reset mk) (([] : List Msg), t)).2 v = true ∧
        reset v = true) := by
      intro hc
      rw [hr] at hc
      simp at hc
    have hstep := edgeStep_frozen hit reset mk
      (l1.foldl (edgeStep hit reset mk) (([] : List Msg), t)) v hc1 hc2
    constructor
    · rw [foldl_edge_count hit reset mk (mk v) l2 _ hne2, hstep]
      exact hmidcount
    · rw [foldl_edge_flag_notMem hit reset mk l2 _ v hvl2, hstep, hmidflag]
      exact ht
  · intro ht hr
    have hstep := edgeStep_reset hit reset mk
      (l1.foldl (edgeStep hit reset mk) (([] : List Msg), t)) v
      (hmidflag.trans ht) hr
    constructor
    · rw [foldl_edge_count hit reset mk (mk v) l2 _ hne2, hstep]
      exact hmidcount
    · rw [foldl_edge_flag_notMem hit reset mk l2 _ v hvl2, hstep]
      exact setFlag_self _ _ _

/-- C1: edge-triggered firing for price-above thresholds.  For every symbol
and every value v in its price-above collection (values in a collection are
unique, as the set-alert handler refuses duplicates): when v is disarmed and
an evaluate call observes price ≥ v, exactly one `Price above v` message is
emitted and v becomes armed; while v stays armed, an evaluate call with
price ≥ v emits no message for v and leaves v armed; and a call observing
price < v emits no message for v and silently disarms v.  In particular, for
price-above=[100] and the price sequence 95, 101, 101, 99, 101 the cycles
trigger exactly on cycles 2 and 5, with message text "Price above 100". -/
theorem priceAbove_edge_triggered :
    (∀ (s : MonitorState) (symbol : String) (price v : ℚ) (pct : Option ℚ)
      (cfg : AlertConfig),
      s.stock_alerts symbol = some cfg → cfg.price_high.Nodup →
      v ∈ cfg.price_high →
      ((trigOf s symbol).price_high v = false → price ≥ v →
        (check_alerts s symbol price pct).1.count (Msg.priceAbove v) = 1 ∧
        (trigOf (check_alerts s symbol price pct).2 symbol).price_high v = true) ∧
      ((trigOf s symbol).price_high v = true → price ≥ v →
        (check_alerts s symbol price pct).1.count (Msg.priceAbove v) = 0 ∧
        (trigOf (check_alerts s symbol price pct).2 symbol).price_high v = true) ∧
      ((trigOf s symbol).price_high v = true → price < v →
        (check_alerts s symbol price pct).1.count (Msg.priceAbove v) = 0 ∧
        (trigOf (check_alerts s symbol price pct).2 symbol).price_high v = false)) ∧
    runPrices abcState "ABC" [95, 101, 101, 99, 101] =
      [[], [("ABC", [Msg.priceAbove 100])], [], [],
       [("ABC", [Msg.priceAbove 100])]] ∧
    Msg.render (Msg.priceAbove 100) = "Price above 100" := by
  refine ⟨?_, by decide, by decide⟩
  intro s symbol price v pct cfg hcfg hnd hv
  have hinj : ∀ w u : ℚ, Msg.priceAbove w = Msg.priceAbove u → w = u :=
    fun w u h => by injection h
  have key := foldl_edge_once (priceAboveHit price) (priceAboveReset price)
    Msg.priceAbove hinj cfg.price_high v (trigOf s symbol).price_high hnd hv
  have hmsgs : (check_alerts s symbol price pct).1.count (Msg.priceAbove v) =
      (cfg.price_high.foldl
        (edgeStep (priceAboveHit price) (priceAboveReset price) Msg.priceAbove)
        (([] : List Msg), (trigOf s symbol).price_high)).1.count
          (Msg.priceAbove v) := by
    rw [check_alerts_msgs_of_some s symbol price pct cfg hcfg]
    exact runCollections_count_priceAbove price pct cfg (trigOf s symbol) v
  have hflag : (trigOf (check_alerts s symbol price pct).2 symbol).price_high v =
      (cfg.price_high.foldl
        (edgeStep (priceAboveHit price) (priceAboveReset price) Msg.priceAbove)
        (([] : List Msg), (trigOf s symbol).price_high)).2 v := by
    rw [check_alerts_trigOf_of_some s symbol price pct cfg hcfg]
    rfl
  refine ⟨?_, ?_, ?_⟩
  · intro hf hge
    have hh : priceAboveHit price v = true := by
      simp only [priceAboveHit, decide_eq_true_eq]
      exact hge
    obtain ⟨hc, hfl⟩ := key.1 hf hh
    exact ⟨hmsgs.trans hc, hflag.trans hfl⟩
  · intro ht hge
    have hr : priceAboveReset price v = false := by
      simp [priceAboveReset, not_lt.mpr hge]
    obtain ⟨hc, hfl⟩ := key.2.1 ht hr
    exact ⟨hmsgs.trans hc, hflag.trans hfl⟩
  · intro ht hlt
    have hr : priceAboveReset price v = true := by
      simp only [priceAboveReset, decide_eq_true_eq]
      exact hlt
    obtain ⟨hc, hfl⟩ := key.2.2 ht hr
    exact ⟨hmsgs.trans hc, hflag.trans hfl⟩

/-- Witness for C1 at a concrete input: the scenario state, price 101 against
the disarmed threshold 100 — one message fires and the threshold arms. -/
theorem priceAbove_edge_triggered_witness :
    (check_alerts abcState "ABC" 101 none).1.count (Msg.priceAbove 100) = 1 ∧
    (trigOf (check_alerts abcState "ABC" 101 none).2 "ABC").price_high 100 =
      true :=
  (priceAbove_edge_triggered.1 abcState "ABC" 101 100 none
    { AlertConfig.empty with price_high := [100] }
    (by decide) (by decide) (by decide)).1 (by decide) (by decide)

/-- C7: percent thresholds are frozen while the percent input is undefined.
An evaluate call with `None` percent neither fires nor disarms any
percent-above or percent-below threshold — every such armed/disarmed flag is
unchanged by the call — and the call emits no percent-threshold message. -/
theorem percent_thresholds_frozen_when_undefined (s : MonitorState)
    (symbol : String) (price v : ℚ) :
    (trigOf (check_alerts s symbol price none).2 symbol).percent_high v =
      (trigOf s symbol).percent_high v ∧
    (trigOf (check_alerts s symbol price none).2 symbol).percent_low v =
      (trigOf s symbol).percent_low v ∧
    (check_alerts s symbol price none).1.countP Msg.isPercentMsg = 0 := by
  cases hcfg : s.stock_alerts symbol with
  | none =>
    rw [check_alerts_of_none s symbol price none hcfg]
    exact ⟨rfl, rfl, rfl⟩
  | some cfg =>
    refine ⟨?_, ?_, ?_⟩
    · rw [check_alerts_trigOf_of_some s symbol price none cfg hcfg,
        runCollections_pct_none]
      rfl
    · rw [check_alerts_trigOf_of_some s symbol price none cfg hcfg,
        runCollections_pct_none]
      rfl
    · rw [check_alerts_msgs_of_some s symbol price none cfg hcfg,
        runCollections_pct_none,
        stepPL_countP price _ _ _ (fun w _ => rfl),
        stepPH_countP price _ _ _ (fun w _ => rfl)]
      rfl

theorem capRows_eq_drop {α : Type} (cap : ℕ) (l : List α) :
    capRows cap l = l.drop (l.length - cap) := by
  unfold capRows
  split_ifs with h
  · rfl
  · rw [Nat.sub_eq_zero_of_le (Nat.le_of_not_lt h), List.drop_zero]

theorem capRows_length {α : Type} (cap : ℕ) (l : List α) :
    (capRows cap l).length = min l.length cap := by
  rw [capRows_eq_drop, List.length_drop]
  omega

theorem foldl_appendCapped_eq {α : Type} (cap : ℕ) :
    ∀ (rs : List α) (b : List α), b.length ≤ cap →
      rs.foldl (appendCapped cap) b = (b ++ rs).drop ((b ++ rs).length - cap) := by
  intro rs
  induction rs with
  | nil =>
    intro b hb
    simp [Nat.sub_eq_zero_of_le hb]
  | cons r rest ih =>
    intro b hb
    rw [List.foldl_cons]
    have hlen : (appendCapped cap b r).length = min (b.length + 1) cap := by
      rw [appendCapped, capRows_length]
      simp
    have hble : (appendCapped cap b r).length ≤ cap := by
      rw [hlen]
      exact min_le_right _ _
    rw [ih _ hble]
    have hac : appendCapped cap b r =
        (b ++ [r]).drop ((b ++ [r]).length - cap) := by
      rw [appendCapped, capRows_eq_drop]
    rw [hac,
      ← List.drop_append_of_le_length (Nat.sub_le (b ++ [r]).length cap),
      List.drop_drop]
    have hassoc : (b ++ [r]) ++ rest = b ++ r :: rest := by simp
    rw [hassoc]
    congr 1
    simp only [List.length_drop, List.length_append, List.length_cons,
      List.length_nil]
    omega

theorem histAfter_eq_drop {α : Type} (cap : ℕ) (rs : List α) :
    histAfter cap rs = rs.drop (rs.length - cap) := by
  unfold histAfter
  rw [foldl_appendCapped_eq cap rs [] (by simp)]
  simp

theorem histAfter_length {α : Type} (cap : ℕ) (rs : List α) :
    (histAfter cap rs).length = min rs.length cap := by
  rw [histAfter_eq_drop, List.length_drop]
  omega

theorem monitor_cycle_export_eq (s : MonitorState) (symbols : List String)
    (now : String) (fetch : Option (String → Option ℚ)) :
    (monitor_stock_prices_cycle s symbols now fetch).1.export_data =
      capRows MAX_ROWS
        ((symbols.foldl (processSymbol (fetchRow fetch) now)
          (s, [])).1.export_data) :=
  rfl

/-- C4: cap and FIFO eviction of the history buffer.  The general law: after
appending any sequence of records to an empty capped buffer, the buffer is
exactly the last `min N C` records in append order (so it never exceeds the
cap and eviction is oldest-first); additionally, a polling cycle always
leaves `export_data` with at most `MAX_ROWS = 500` rows; and in the concrete
scenario of 501 sequential records with cap 500, the buffer holds exactly
500 records and its first record is the 2nd record ever appended. -/
theorem history_buffer_cap_fifo :
    (∀ (C : ℕ) (rs : List ObservationRecord),
      (histAfter C rs).length = min rs.length C ∧
      histAfter C rs = rs.drop (rs.length - C)) ∧
    (∀ (s : MonitorState) (symbols : List String) (now : String)
      (fetch : Option (String → Option ℚ)),
      (monitor_stock_prices_cycle s symbols now fetch).1.export_data.length ≤
        MAX_ROWS) ∧
    (histAfter MAX_ROWS sampleRecords).length = MAX_ROWS ∧
    (histAfter MAX_ROWS sampleRecords).head? = some (sampleRec 1) := by
  have hslen : sampleRecords.length = 501 := by simp [sampleRecords]
  refine ⟨fun C rs => ⟨histAfter_length C rs, histAfter_eq_drop C rs⟩,
    ?_, ?_, ?_⟩
  · intro s symbols now fetch
    rw [monitor_cycle_export_eq, capRows_length]
    exact min_le_right _ _
  · rw [histAfter_length, hslen]
    rfl
  · rw [histAfter_eq_drop, hslen]
    show (sampleRecords.drop 1).head? = some (sampleRec 1)
    rw [List.head?_drop]
    simp [sampleRecords, List.getElem?_map, List.getElem?_range]

theorem foldl_processSymbol_nonePrices (now : String) :
    ∀ (symbols : List String) (acc : MonitorState × List (String × List Msg)),
      symbols.foldl (processSymbol (fun _ => none) now) acc = acc := by
  intro symbols
  induction symbols with
  | nil => intro acc; rfl
  | cons a l ih =>
    intro acc
    rw [List.foldl_cons]
    exact ih acc

/-- C5: atomicity on whole-batch fetch failure.  When the batch call fails
(the source catches the exception, sets `last_row = {}` and continues), the
cycle leaves the whole monitor state — previous-price map, per-threshold
trigger state and the history buffer — unchanged, appends no record and
publishes no alert, and the loop simply proceeds to the next tick (the
embedding of the cycle is a total function, matching the source, whose
`except` clause makes the failure non-fatal).  The hypothesis that the
buffer holds at most `MAX_ROWS` rows is the invariant every cycle
re-establishes (see the cap bound of the history-buffer theorem). -/
theorem batch_failure_cycle_unchanged (s : MonitorState)
    (symbols : List String) (now : String)
    (hlen : s.export_data.length ≤ MAX_ROWS) :
    monitor_stock_prices_cycle s symbols now none = (s, []) := by
  have h1 : symbols.foldl (processSymbol (fetchRow none) now)
      (s, ([] : List (String × List Msg))) = (s, []) :=
    foldl_processSymbol_nonePrices now symbols (s, [])
  have h2 : capRows MAX_ROWS s.export_data = s.export_data := by
    unfold capRows
    rw [if_neg (Nat.not_lt.mpr hlen)]
  show ({ (symbols.foldl (processSymbol (fetchRow none) now) (s, [])).1 with
      export_data := capRows MAX_ROWS
        (symbols.foldl (processSymbol (fetchRow none) now)
          (s, [])).1.export_data },
    (symbols.foldl (processSymbol (fetchRow none) now) (s, [])).2) = (s, [])
  rw [h1]
  show ({ s with export_data := capRows MAX_ROWS s.export_data },
    ([] : List (String × List Msg))) = (s, [])
  rw [h2]

/-- Witness for C5 at a concrete input: an empty state with one tracked
symbol and a failed batch. -/
theorem batch_failure_cycle_unchanged_witness :
    monitor_stock_prices_cycle emptyMonitorState ["AAPL"] "" none =
      (emptyMonitorState, []) :=
  batch_failure_cycle_unchanged emptyMonitorState ["AAPL"] "" (by decide)

theorem processSymbol_skip (last_row : String → Option ℚ) (now : String)
    (acc : MonitorState × List (String × List Msg)) (sym : String)
    (h : last_row sym = none) : processSymbol last_row now acc sym = acc := by
  unfold processSymbol
  rw [h]

theorem processSymbol_of_some (last_row : String → Option ℚ) (now : String)
    (acc : MonitorState × List (String × List Msg)) (sym : String) (price : ℚ)
    (h : last_row sym = some price) :
    processSymbol last_row now acc sym = processHit acc.1 acc.2 now sym price := by
  unfold processSymbol
  rw [h]

theorem processHit_prev_ne (s : MonitorState)
    (al : List (String × List Msg)) (now sym : String) (price : ℚ)
    (q : String) (hq : q ≠ sym) :
    (processHit s al now sym price).1.previous_prices q =
      s.previous_prices q := by
  simp [processHit, hq, check_alerts_snd_previous_prices]

theorem processHit_prev_self (s : MonitorState)
    (al : List (String × List Msg)) (now sym : String) (price : ℚ) :
    (processHit s al now sym price).1.previous_prices sym = some price := by
  simp [processHit]

theorem processHit_trig_ne (s : MonitorState)
    (al : List (String × List Msg)) (now sym : String) (price : ℚ)
    (q : String) (hq : q ≠ sym) :
    (processHit s al now sym price).1.alert_triggered q =
      s.alert_triggered q := by
  simp only [processHit]
  exact check_alerts_snd_trig_ne s sym price _ q hq

theorem processHit_export_mem (s : MonitorState)
    (al : List (String × List Msg)) (now sym : String) (price : ℚ) :
    ∀ r ∈ (processHit s al now sym price).1.export_data,
      r ∈ s.export_data ∨ r.symbol = sym := by
  intro r hr
  simp only [processHit] at hr
  rw [check_alerts_snd_export_data] at hr
  rcases List.mem_append.mp hr with h1 | h1
  · exact Or.inl h1
  · right
    rw [List.mem_singleton.mp h1]

theorem processSymbol_prev_ne (last_row : String → Option ℚ) (now : String)
    (acc : MonitorState × List (String × List Msg)) (sym : String)
    (q : String) (hq : q ≠ sym) :
    (processSymbol last_row now acc sym).1.previous_prices q =
      acc.1.previous_prices q := by
  cases hr : last_row sym with
  | none => rw [processSymbol_skip last_row now acc sym hr]
  | some price =>
    rw [processSymbol_of_some last_row now acc sym price hr]
    exact processHit_prev_ne acc.1 acc.2 now sym price q hq

theorem processSymbol_trig_ne (last_row : String → Option ℚ) (now : String)
    (acc : MonitorState × List (String × List Msg)) (sym : String)
    (q : String) (hq : q ≠ sym) :
    (processSymbol last_row now acc sym).1.alert_triggered q =
      acc.1.alert_triggered q := by
  cases hr : last_row sym with
  | none => rw [processSymbol_skip last_row now acc sym hr]
  | some price =>
    rw [processSymbol_of_some last_row now acc sym price hr]
    exact processHit_trig_ne acc.1 acc.2 now sym price q hq

theorem processSymbol_export_mem (last_row : String → Option ℚ) (now : String)
    (acc : MonitorState × List (String × List Msg)) (sym : String) :
    ∀ r ∈ (processSymbol last_row now acc sym).1.export_data,
      r ∈ acc.1.export_data ∨ r.symbol = sym := by
  cases hr : last_row sym with
  | none =>
    rw [processSymbol_skip last_row now acc sym hr]
    exact fun r hrm => Or.inl hrm
  | some price =>
    rw [processSymbol_of_some last_row now acc sym price hr]
    exact processHit_export_mem acc.1 acc.2 now sym price

theorem foldl_processSymbol_untouched (lr : String → Option ℚ) (now : String)
    (q : String) (hq : lr q = none) :
    ∀ (symbols : List String) (acc : MonitorState × List (String × List Msg)),
      (symbols.foldl (processSymbol lr now) acc).1.previous_prices q =
        acc.1.previous_prices q ∧
      (symbols.foldl (processSymbol lr now) acc).1.alert_triggered q =
        acc.1.alert_triggered q ∧
      ∀ r ∈ (symbols.foldl (processSymbol lr now) acc).1.export_data,
        r.symbol = q → r ∈ acc.1.export_data := by
  intro symbols
  induction symbols with
  | nil => intro acc; exact ⟨rfl, rfl, fun r hr _ => hr⟩
  | cons a l ih =>
    intro acc
    rw [List.foldl_cons]
    by_cases hqa : q = a
    · subst hqa
      rw [processSymbol_skip lr now acc q hq]
      exact ih acc
    · obtain ⟨ih1, ih2, ih3⟩ := ih (processSymbol lr now acc a)
      refine ⟨?_, ?_, ?_⟩
      · rw [ih1, processSymbol_prev_ne lr now acc a q hqa]
      · rw [ih2, processSymbol_trig_ne lr now acc a q hqa]
      · intro r hr hsym
        rcases processSymbol_export_mem lr now acc a r (ih3 r hr hsym) with h1 | h1
        · exact h1
        · exact absurd (hsym.symm.trans h1) hqa

theorem foldl_processSymbol_prev_notMem (lr : String → Option ℚ) (now : String) :
    ∀ (symbols : List String) (acc : MonitorState × List (String × List Msg))
      (q : String), q ∉ symbols →
      (symbols.foldl (processSymbol lr now) acc).1.previous_prices q =
        acc.1.previous_prices q := by
  intro symbols
  induction symbols with
  | nil => intro acc q _; rfl
  | cons a l ih =>
    intro acc q hq
    simp only [List.mem_cons, not_or] at hq
    rw [List.foldl_cons, ih _ q hq.2,
      processSymbol_prev_ne lr now acc a q hq.1]

/-- C6: per-symbol skip on unavailable price.  If a symbol's price is
missing from the batch response (the source also treats NaN as missing, both
embedded as `none`), a cycle leaves that symbol's previous-price entry and
trigger state untouched and appends no observation record for it; and other
symbols of the same cycle are still processed normally — in particular any
symbol with an available price has its previous-price entry set to that
price by the cycle. -/
theorem unavailable_price_symbol_skipped (s : MonitorState)
    (symbols : List String) (lr : String → Option ℚ) (now : String)
    (q : String) (hq : lr q = none) :
    ((monitor_stock_prices_cycle s symbols now (some lr)).1.previous_prices q =
        s.previous_prices q ∧
      (monitor_stock_prices_cycle s symbols now (some lr)).1.alert_triggered q =
        s.alert_triggered q ∧
      ∀ r ∈ (monitor_stock_prices_cycle s symbols now (some lr)).1.export_data,
        r.symbol = q → r ∈ s.export_data) ∧
    (symbols.Nodup → ∀ p : ℚ, ∀ q2 ∈ symbols, lr q2 = some p →
      (monitor_stock_prices_cycle s symbols now (some lr)).1.previous_prices q2 =
        some p) := by
  obtain ⟨h1, h2, h3⟩ :=
    foldl_processSymbol_untouched lr now q hq symbols
      (s, ([] : List (String × List Msg)))
  refine ⟨⟨h1, h2, ?_⟩, ?_⟩
  · intro r hr hsym
    have hexp : (monitor_stock_prices_cycle s symbols now (some lr)).1.export_data =
        capRows MAX_ROWS
          ((symbols.foldl (processSymbol lr now)
            (s, ([] : List (String × List Msg)))).1.export_data) := rfl
    rw [hexp, capRows_eq_drop] at hr
    exact h3 r (List.mem_of_mem_drop hr) hsym
  · intro hnd p q2 hq2 hlr
    obtain ⟨l1, l2, hsplit⟩ := List.append_of_mem hq2
    have hq2l2 : q2 ∉ l2 := by
      rw [hsplit] at hnd
      exact (List.nodup_cons.mp (List.nodup_append.mp hnd).2.1).1
    show ((symbols.foldl (processSymbol lr now)
      (s, ([] : List (String × List Msg)))).1.previous_prices q2) = some p
    rw [hsplit, List.foldl_append, List.foldl_cons,
      foldl_processSymbol_prev_notMem lr now l2 _ q2 hq2l2]
    rw [processSymbol_of_some lr now _ q2 p hlr]
    exact processHit_prev_self _ _ now q2 p

/-- Witness for C6 at a concrete input: a two-symbol cycle where "AAA" has no
price and "BBB" trades at 5. -/
theorem unavailable_price_symbol_skipped_witness :
    (monitor_stock_prices_cycle emptyMonitorState ["AAA", "BBB"] ""
      (some skipDemoRow)).1.previous_prices "AAA" =
        emptyMonitorState.previous_prices "AAA" ∧
    (monitor_stock_prices_cycle emptyMonitorState ["AAA", "BBB"] ""
      (some skipDemoRow)).1.previous_prices "BBB" = some 5 :=
  ⟨(unavailable_price_symbol_skipped emptyMonitorState ["AAA", "BBB"]
      skipDemoRow "" "AAA" (by decide)).1.1,
   (unavailable_price_symbol_skipped emptyMonitorState ["AAA", "BBB"]
      skipDemoRow "" "AAA" (by decide)).2 (by decide) 5 "BBB" (by decide)
      (by decide)⟩

/-- C8: percent-below end-to-end scenario with exact arithmetic.  For symbol
"XYZ" with percent-below=[-5] and no prior price: the first cycle at price
100 computes an undefined percent and triggers nothing; the second cycle at
price 94 computes percent (94 - 100) / 100 * 100 = -6, which satisfies
-6 ≤ -5, so evaluate fires the percent-below threshold and the cycle
publishes the message rendered as "Percentage change below -5%". -/
theorem percent_below_scenario :
    calculate_percentage_change xyzState.previous_prices "XYZ" 100 = none ∧
    xyzCycle1.2 = [] ∧
    xyzAfterFirstCycle.previous_prices "XYZ" = some 100 ∧
    calculate_percentage_change xyzAfterFirstCycle.previous_prices "XYZ" 94 =
      some ((94 - 100) / 100 * 100) ∧
    ((94 - 100 : ℚ) / 100 * 100 = -6) ∧
    ((-6 : ℚ) ≤ -5) ∧
    xyzCycle2.2 = [("XYZ", [Msg.percentBelow (-5)])] ∧
    Msg.render (Msg.percentBelow (-5)) = "Percentage change below -5%" := by
  have hprev : xyzAfterFirstCycle.previous_prices "XYZ" = some 100 := by decide
  have harith : ((94 - 100 : ℚ) / 100 * 100) = -6 := by norm_num
  have hcalc : calculate_percentage_change
      xyzAfterFirstCycle.previous_prices "XYZ" 94 =
      some ((94 - 100) / 100 * 100) := by
    unfold calculate_percentage_change
    rw [hprev]
    norm_num
  have hcalcLit : calculate_percentage_change
      xyzAfterFirstCycle.previous_prices "XYZ" 94 = some (-6) := by
    rw [hcalc, harith]
  have hc2 : xyzCycle2.2 = [("XYZ", [Msg.percentBelow (-5)])] := by
    show (processHit xyzAfterFirstCycle [] "" "XYZ" 94).2 =
      [("XYZ", [Msg.percentBelow (-5)])]
    simp only [processHit]
    rw [hcalcLit]
    decide
  exact ⟨by decide, by decide, hprev, hcalc, harith, by decide, hc2, by decide⟩
